import Mathlib

/-!
Verification development for the iroha core subsystems: the instruction
execution model over the world-state-view (`iroha/src/domain.rs`), the block
persistence layer Kura (`iroha/src/kura.rs`), and the crypto container types
(`iroha_crypto/src/lib.rs`, `iroha_client_no_std/src/crypto.rs`).

Rust `BTreeMap<K, V>` is embedded as an association list `List (K × V)` with
replace-on-conflict insertion; the claims under study do not depend on the
iteration order of the map, only on lookup, membership and replacement, which
the association list models exactly.  Machine integers (`u8`, `u64`) are
embedded as `Nat`, with explicit `% 256` where the source truncates to a byte.
Fallible Rust functions returning `Result<T, String>` are embedded as
`Except String T`; panics (`expect`) are embedded as `Except` errors as well.
-/

namespace IrohaSpec

/-! ### Association maps: embedding of `std::collections::BTreeMap` -/

/-- Lookup of a key in an association list, embedding `BTreeMap::get`. -/
def findKV? {K V : Type} [DecidableEq K] : List (K × V) → K → Option V
  | [], _ => none
  | (k', v) :: rest, k => if k' = k then some v else findKV? rest k

/-- Embedding of `BTreeMap::contains_key`. -/
def containsKV {K V : Type} [DecidableEq K] (m : List (K × V)) (k : K) : Bool :=
  (findKV? m k).isSome

/-- Embedding of `BTreeMap::insert`: replaces the value at an existing key,
otherwise adds a new entry. -/
def insertKV {K V : Type} [DecidableEq K] : List (K × V) → K → V → List (K × V)
  | [], k, v => [(k, v)]
  | (k', v') :: rest, k, v =>
    if k' = k then (k, v) :: rest else (k', v') :: insertKV rest k v

theorem findKV?_insertKV_self {K V : Type} [DecidableEq K]
    (m : List (K × V)) (k : K) (v : V) : findKV? (insertKV m k v) k = some v := by
  induction m with
  | nil => simp [insertKV, findKV?]
  | cons kv rest ih =>
    by_cases h : kv.1 = k
    · simp [insertKV, h, findKV?]
    · simp [insertKV, h, findKV?, ih]

theorem findKV?_insertKV_ne {K V : Type} [DecidableEq K]
    (m : List (K × V)) (k k' : K) (v : V) (hne : k ≠ k') :
    findKV? (insertKV m k v) k' = findKV? m k' := by
  induction m with
  | nil => simp [insertKV, findKV?, hne]
  | cons kv rest ih =>
    by_cases h : kv.1 = k
    · simp [insertKV, h, findKV?, hne]
    · simp [insertKV, h, findKV?]
      by_cases h2 : kv.1 = k'
      · simp [h2]
      · simp [h2, ih]

/-! ### Crypto primitives: `iroha_crypto/src/lib.rs` -/

/-- Well-formedness of a byte list (`Vec<u8>` is embedded as `List Nat`):
every element fits in a `u8`. -/
def BytesWF (bs : List Nat) : Prop := ∀ b ∈ bs, b < 256

/-- Embedding of `iroha_crypto::Algorithm`. -/
inductive Algorithm where
  | Ed25519
  | Secp256k1
deriving DecidableEq

/-- Embedding of `impl FromStr for Algorithm`: only `"ed25519"` and
`"secp256k1"` parse. -/
def Algorithm.fromStr? (s : String) : Except String Algorithm :=
  if s = "ed25519" then .ok .Ed25519
  else if s = "secp256k1" then .ok .Secp256k1
  else .error ("The " ++ s ++ " algorithm is not supported.")

/-- Embedding of `iroha_crypto::PublicKey`: a digest-function tag and a raw
payload. -/
structure PublicKey where
  digest_function : String
  payload : List Nat
deriving DecidableEq

/-- Embedding of `iroha_crypto::Signature`: public key of the signer and the
raw signature bytes. -/
structure Signature where
  public_key : PublicKey
  signature : List Nat
deriving DecidableEq

/-- Verification backend: stands for the external `ursa` signature schemes
(`Ed25519Sha512::verify`, `EcdsaSecp256k1Sha256::verify`).  Given the
algorithm, the message, the signature bytes and the public-key payload it
returns the backend verdict or a backend error. -/
def Backend : Type :=
  Algorithm → List Nat → List Nat → List Nat → Except String Bool

/-- Embedding of `Signature::verify`: parse the algorithm from the public
key's digest-function tag, ask the backend, and turn a `false` verdict into
an error. -/
def Signature.verify (backend : Backend) (self : Signature) (message : List Nat) :
    Except String Unit :=
  match Algorithm.fromStr? self.public_key.digest_function with
  | .error e => .error e
  | .ok algorithm =>
    match backend algorithm message self.signature self.public_key.payload with
    | .error e => .error e
    | .ok true => .ok ()
    | .ok false => .error "Signature did not pass verification."

/-- Embedding of `iroha_crypto::Signatures`: a map from public key to
signature with at most one entry per key. -/
structure Signatures where
  signatures : List (PublicKey × Signature)
deriving DecidableEq

/-- Embedding of `Signatures::add`: insert, replacing the entry for the same
public key. -/
def Signatures.add (self : Signatures) (signature : Signature) : Signatures :=
  ⟨insertKV self.signatures signature.public_key signature⟩

/-- Embedding of `Signatures::values`: all signatures in the container, in
map iteration order. -/
def Signatures.values (self : Signatures) : List Signature :=
  self.signatures.map (fun kv => kv.2)

/-- Embedding of `Signatures::verified`: the signatures whose individual
verification against the payload succeeds, in map iteration order. -/
def Signatures.verified (backend : Backend) (self : Signatures) (payload : List Nat) :
    List Signature :=
  (self.signatures.filter
    (fun kv => (Signature.verify backend kv.2 payload).isOk)).map (fun kv => kv.2)

/-! ### Domain model and Iroha Special Instructions: `iroha/src/domain.rs` -/

/-- Embedding of the `Name` alias (`type Name = String`). -/
abbrev Name : Type := String

/-- Modelled from the spec: `AccountId` is the pair `(name, domain_name)`
(spec §3, entity table); the `Account` type itself is not in the excerpt. -/
structure AccountId where
  name : String
  domain_name : String
deriving DecidableEq

/-- Embedding of the derived `Debug` formatting of `AccountId`, used when the
duplicate-register error message interpolates the id with `{:?}`. -/
def AccountId.debugFmt (id : AccountId) : String :=
  "AccountId \x7b name: \"" ++ id.name ++ "\", domain_name: \"" ++
    id.domain_name ++ "\" \x7d"

/-- Modelled from the spec: an `Account` carries its id and a set of
signatory public keys (spec §3 and §4.2); its asset map is irrelevant to the
claims and omitted. -/
structure Account where
  id : AccountId
  signatories : List PublicKey
deriving DecidableEq

/-- Modelled from the spec: `AssetDefinitionId` is the pair
`(name, domain_name)` (spec §3, entity table). -/
structure AssetDefinitionId where
  name : String
  domain_name : String
deriving DecidableEq

/-- Modelled from the spec: an `AssetDefinition` owns nothing beyond its id
(spec §3, entity table). -/
structure AssetDefinition where
  id : AssetDefinitionId
deriving DecidableEq

/-- Embedding of `iroha::domain::Domain`: a name and ordered maps of accounts
and asset definitions keyed by id. -/
structure Domain where
  name : String
  accounts : List (AccountId × Account)
  asset_definitions : List (AssetDefinitionId × AssetDefinition)
deriving DecidableEq

/-- Embedding of the hand-written `impl PartialEq for Domain`, which compares
only the `name` field. -/
def Domain.eqPartial (d1 d2 : Domain) : Bool :=
  d1.name == d2.name

/-- Modelled from the spec: the world-state-view is the in-memory projection
peer → domains → accounts → assets (spec §3, §4.4); the `WorldStateView` type
itself is not in the excerpt.  Only the domain map is modelled: the peer's
address, key and trusted-peer set are never consulted by the instructions
under study. -/
structure WorldStateView where
  domains : List (String × Domain)
deriving DecidableEq

/-- Modelled from the spec: `WorldStateView::domain(&name)` is a lookup in
the domain map (spec §4.4). -/
def WorldStateView.domain (wsv : WorldStateView) (name : String) : Option Domain :=
  findKV? wsv.domains name

/-- Modelled from the spec: writing a modified domain back into the map.
The Rust `domain(&name)` returns a mutable reference mutated in place; the
pure embedding splits this into the `domain` lookup followed by this
write-back. -/
def WorldStateView.updateDomain (wsv : WorldStateView) (name : String)
    (d : Domain) : WorldStateView :=
  ⟨insertKV wsv.domains name d⟩

/-- Modelled from the spec: the `PermissionInstruction` variants invoked by
the register instructions (spec §4.3; the permission module is outside the
excerpt, spec §9 open question).  The second argument of the Rust variants is
`None` at both call sites and is dropped. -/
inductive PermissionInstruction where
  | CanRegisterAccount (authority : AccountId)
  | CanRegisterAssetDefinition (authority : AccountId)
deriving DecidableEq

/-- Modelled from the spec: `PermissionInstruction::execute` checks the
permission against a world-state-view (spec §4.3.1).  Its decision procedure
is outside the excerpt, so it is taken as an arbitrary parameter; every
theorem quantifies over it. -/
def PermCheck : Type :=
  PermissionInstruction → WorldStateView → Except String Unit

/-- Embedding of the generic `Register<Domain, D>` instruction value: the
object to register and the destination domain name. -/
structure Register (Obj : Type) where
  object : Obj
  destination_id : String
deriving DecidableEq

/-- Embedding of `iroha::domain::isi::Output`. -/
inductive Output where
  | RegisterAccount (world_state_view : WorldStateView)
  | RegisterAsset (world_state_view : WorldStateView)
deriving DecidableEq

/-- Embedding of `Output::world_state_view`. -/
def Output.world_state_view : Output → WorldStateView
  | .RegisterAccount wsv => wsv
  | .RegisterAsset wsv => wsv

/-- Embedding of `Register<Domain, Account>::execute`: check the permission
against the caller's world-state-view, clone it, find the destination domain,
fail when the account id is already a key, otherwise insert the account. -/
def Register.executeAccount (perm : PermCheck) (self : Register Account)
    (authority : AccountId) (world_state_view : WorldStateView) :
    Except String Output :=
  match perm (.CanRegisterAccount authority) world_state_view with
  | .error e => .error e
  | .ok _ =>
    let account := self.object
    match world_state_view.domain self.destination_id with
    | none => .error "Failed to find domain."
    | some domain =>
      if containsKV domain.accounts account.id then
        .error ("Domain already contains an account with an Id: " ++
          account.id.debugFmt)
      else
        .ok (Output.RegisterAccount
          (world_state_view.updateDomain self.destination_id
            { domain with accounts := insertKV domain.accounts account.id account }))

/-- Embedding of `Register<Domain, AssetDefinition>::execute`: check the
permission, clone the world-state-view, find the destination domain, and
insert the asset definition by id unconditionally (the source performs no
duplicate check). -/
def Register.executeAsset (perm : PermCheck) (self : Register AssetDefinition)
    (authority : AccountId) (world_state_view : WorldStateView) :
    Except String Output :=
  match perm (.CanRegisterAssetDefinition authority) world_state_view with
  | .error e => .error e
  | .ok _ =>
    let asset := self.object
    match world_state_view.domain self.destination_id with
    | none => .error "Failed to find domain."
    | some domain =>
      .ok (Output.RegisterAsset
        (world_state_view.updateDomain self.destination_id
          { domain with
            asset_definitions := insertKV domain.asset_definitions asset.id asset }))

/-- Embedding of `iroha::domain::isi::DomainInstruction`. -/
inductive DomainInstruction where
  | RegisterAccount (domain_name : String) (account : Account)
  | RegisterAsset (domain_name : String) (asset : AssetDefinition)
deriving DecidableEq

/-- Embedding of `DomainInstruction::execute`: dispatch to the corresponding
generic register handler. -/
def DomainInstruction.execute (perm : PermCheck) (self : DomainInstruction)
    (authority : AccountId) (world_state_view : WorldStateView) :
    Except String Output :=
  match self with
  | .RegisterAccount domain_name account =>
    Register.executeAccount perm ⟨account, domain_name⟩ authority world_state_view
  | .RegisterAsset domain_name asset =>
    Register.executeAsset perm ⟨asset, domain_name⟩ authority world_state_view

/-- Permission variant consulted by a given domain instruction, read off the
first line of each `execute` body. -/
def DomainInstruction.permissionOf (self : DomainInstruction)
    (authority : AccountId) : PermissionInstruction :=
  match self with
  | .RegisterAccount _ _ => .CanRegisterAccount authority
  | .RegisterAsset _ _ => .CanRegisterAssetDefinition authority

/-- Modelled from the spec: the transaction applier installs the returned
world-state-view on success and keeps its own on failure (spec §4.3.2,
snapshot-then-mutate). -/
def applyDomainInstruction (perm : PermCheck) (self : DomainInstruction)
    (authority : AccountId) (world_state_view : WorldStateView) : WorldStateView :=
  match DomainInstruction.execute perm self authority world_state_view with
  | .ok out => out.world_state_view
  | .error _ => world_state_view

/-! ### Block pipeline and Kura: `iroha/src/kura.rs` -/

/-- Abstract stand-in for the 32-byte blake2b hash values (`type Hash =
[u8; 32]`); the claims use hashes only up to equality. -/
abbrev Hash : Type := Nat

/-- Modelled from the spec: a block header carries the height, a timestamp,
the previous block hash and the Merkle root (spec §6, block codec); the block
types themselves are outside the excerpt. -/
structure BlockHeader where
  height : Nat
  timestamp : Nat
  previous_block_hash : Hash
  merkle_root : Hash
deriving DecidableEq

/-- Modelled from the spec: a `ValidBlock` is a header plus transaction and
signature payloads (spec §6); the payload is opaque to the claims and kept as
a byte list. -/
structure ValidBlock where
  header : BlockHeader
  transactions : List Nat
deriving DecidableEq

/-- Modelled from the spec: `ValidBlock::hash` is blake2b-256 over the
codec-encoded header (spec §6); the hash function is kept as an abstract
parameter `HashFn` below. -/
def HashFn : Type := ValidBlock → Hash

/-- Modelled from the spec: `ValidBlock::commit` finalizes a valid block to
a `CommittedBlock` (spec §4.5). -/
structure CommittedBlock where
  block : ValidBlock
deriving DecidableEq

/-- Embedding of `ValidBlock::commit`. -/
def ValidBlock.commit (self : ValidBlock) : CommittedBlock :=
  ⟨self⟩

/-- Embedding of `iroha::kura::Mode`. -/
inductive Mode where
  | Strict
  | Fast
deriving DecidableEq

/-- Modelled from the spec: the Merkle tree is built over the sequence of
block hashes in height order (spec §4.5; `merkle.rs` is outside the excerpt).
Only the leaf sequence is modelled — the claims never inspect internal
nodes. -/
structure MerkleTree where
  leaves : List Hash
deriving DecidableEq

/-- Embedding of `MerkleTree::new`. -/
def MerkleTree.new : MerkleTree := ⟨[]⟩

/-- Embedding of `MerkleTree::build` over a list of blocks. -/
def MerkleTree.build (hashFn : HashFn) (blocks : List ValidBlock) : MerkleTree :=
  ⟨blocks.map hashFn⟩

/-- Embedding of `iroha::kura::BlockStore`: the on-disk directory is a map
from height (the decimal file name) to the stored block.  Files hold the
codec-encoded block; the codec is not modelled, so files store decoded
blocks directly. -/
structure BlockStore where
  files : List (Nat × ValidBlock)
deriving DecidableEq

/-- Embedding of an empty block-store directory. -/
def BlockStore.empty : BlockStore := ⟨[]⟩

/-- Embedding of `BlockStore::write`: create the file named by the block's
header height and write the encoded block; `writeFails` stands for the
environment's I/O verdict (file creation or write failure), in which case the
directory is unchanged and an error is returned, as in the source. -/
def BlockStore.write (hashFn : HashFn) (writeFails : Bool) (self : BlockStore)
    (block : ValidBlock) : Except String Hash × BlockStore :=
  if writeFails then
    (.error "Failed to write to storage file.", self)
  else
    (.ok (hashFn block), ⟨insertKV self.files block.header.height block⟩)

/-- Embedding of `BlockStore::read`: open the file named by the height and
decode it; a missing file is the only modelled failure (a decode failure
panics in the source and is not modelled, since files only ever hold blocks
put there by `write`). -/
def BlockStore.read (self : BlockStore) (height : Nat) : Option ValidBlock :=
  findKV? self.files height

/-- Largest height that has a file, used only to bound the `read_all`
recursion: every height above it reads as missing. -/
def BlockStore.maxHeight (self : BlockStore) : Nat :=
  self.files.foldr (fun kv acc => max kv.1 acc) 0

/-- Fuelled loop of `BlockStore::read_all`: read consecutive heights starting
at `h` and stop at the first missing file. -/
def BlockStore.readAllAux (self : BlockStore) : Nat → Nat → List ValidBlock
  | 0, _ => []
  | fuel + 1, h =>
    match self.read h with
    | none => []
    | some block => block :: BlockStore.readAllAux self fuel (h + 1)

/-- Embedding of `BlockStore::read_all`: read heights 0, 1, 2, … and stop at
the first missing file.  The source's unbounded `while` loop always
terminates because the directory is finite; fuel `maxHeight + 2` is enough
since height `maxHeight + 1` is always missing. -/
def BlockStore.read_all (self : BlockStore) : List ValidBlock :=
  self.readAllAux (self.maxHeight + 2) 0

/-- Writing a sequence of blocks through `BlockStore::write` (the
environment's writes all succeeding), used to state the sequential-write part
of the `read_all` claim. -/
def BlockStore.writeAll (hashFn : HashFn) (self : BlockStore) :
    List ValidBlock → BlockStore
  | [] => self
  | block :: rest =>
    BlockStore.writeAll hashFn (BlockStore.write hashFn false self block).2 rest

/-- Embedding of `iroha::kura::Kura`.  The committed-block channel is not
part of the state: `store` returns the list of messages sent on it. -/
structure Kura where
  mode : Mode
  blocks : List ValidBlock
  block_store : BlockStore
  merkle_tree : MerkleTree
deriving DecidableEq

/-- Embedding of `Kura::new`. -/
def Kura.new (mode : Mode) (block_store : BlockStore) : Kura :=
  { mode := mode
    blocks := []
    block_store := block_store
    merkle_tree := MerkleTree.new }

/-- Embedding of `Kura::init`: read all blocks from the store, rebuild the
Merkle tree over them, and install them as the in-memory tail.  The source
consults `self.mode` nowhere. -/
def Kura.init (hashFn : HashFn) (self : Kura) : Kura :=
  let blocks := self.block_store.read_all
  { self with
    merkle_tree := MerkleTree.build hashFn blocks
    blocks := blocks }

/-- Embedding of the re-stamping prologue of `Kura::store`: when the tail is
non-empty, set the height to `last_block_index + 1` (the index of the last
tail entry, plus one) and the previous hash to the hash of the last tail
entry; an empty tail leaves the block untouched. -/
def Kura.stamp (hashFn : HashFn) (self : Kura) (block : ValidBlock) : ValidBlock :=
  match self.blocks.getLast? with
  | none => block
  | some last =>
    let last_block_index := self.blocks.length - 1
    { block with
      header := { block.header with
        height := last_block_index + 1
        previous_block_hash := hashFn last } }

/-- Embedding of `Kura::store`: re-stamp the block, write it to the store;
on success send the committed block on the channel, push onto the tail and
return the hash; on failure rebuild the Merkle tree from the store and return
the error.  The third component is the list of messages sent on the
committed-block channel during the call. -/
def Kura.store (hashFn : HashFn) (writeFails : Bool) (self : Kura)
    (block : ValidBlock) : Except String Hash × Kura × List CommittedBlock :=
  let block := self.stamp hashFn block
  match BlockStore.write hashFn writeFails self.block_store block with
  | (.ok hash, block_store) =>
    (.ok hash,
     { self with block_store := block_store, blocks := self.blocks ++ [block] },
     [block.commit])
  | (.error e, block_store) =>
    let blocks := block_store.read_all
    (.error e,
     { self with block_store := block_store,
                 merkle_tree := MerkleTree.build hashFn blocks },
     [])

/-- Modelled from the spec: a chain of blocks is valid when consecutive
heights increase by one and each block's `previous_block_hash` is the hash of
its predecessor (spec §8, invariant 1). -/
def chainValid (hashFn : HashFn) : List ValidBlock → Bool
  | [] => true
  | [_] => true
  | b1 :: b2 :: rest =>
    decide (b2.header.height = b1.header.height + 1) &&
    decide (b2.header.previous_block_hash = hashFn b1) &&
    chainValid hashFn (b2 :: rest)

/-! ### Public-key display and parsing: multihash and hex
(`iroha_crypto/src/lib.rs`, digest codes from
`iroha_client_no_std/src/crypto.rs`) -/

/-- Hexadecimal digit characters emitted by `hex::encode` (lower case). -/
def hexDigitChar (n : Nat) : Char :=
  if n = 0 then '0' else if n = 1 then '1' else if n = 2 then '2'
  else if n = 3 then '3' else if n = 4 then '4' else if n = 5 then '5'
  else if n = 6 then '6' else if n = 7 then '7' else if n = 8 then '8'
  else if n = 9 then '9' else if n = 10 then 'a' else if n = 11 then 'b'
  else if n = 12 then 'c' else if n = 13 then 'd' else if n = 14 then 'e'
  else 'f'

/-- Value of a hexadecimal digit character, as accepted by `hex::decode`
(both cases). -/
def hexDigitVal? (c : Char) : Option Nat :=
  if c = '0' then some 0 else if c = '1' then some 1 else if c = '2' then some 2
  else if c = '3' then some 3 else if c = '4' then some 4 else if c = '5' then some 5
  else if c = '6' then some 6 else if c = '7' then some 7 else if c = '8' then some 8
  else if c = '9' then some 9 else if c = 'a' ∨ c = 'A' then some 10
  else if c = 'b' ∨ c = 'B' then some 11 else if c = 'c' ∨ c = 'C' then some 12
  else if c = 'd' ∨ c = 'D' then some 13 else if c = 'e' ∨ c = 'E' then some 14
  else if c = 'f' ∨ c = 'F' then some 15 else none

/-- Embedding of `hex::encode`: two lower-case digits per byte. -/
def hexEncodeChars : List Nat → List Char
  | [] => []
  | b :: rest => hexDigitChar (b / 16) :: hexDigitChar (b % 16) :: hexEncodeChars rest

/-- Embedding of `hex::decode`: pairs of digits to bytes, failing on an odd
length or a non-digit. -/
def hexDecode : List Char → Except String (List Nat)
  | [] => .ok []
  | [_] => .error "Odd number of digits."
  | c1 :: c2 :: rest =>
    match hexDigitVal? c1, hexDigitVal? c2, hexDecode rest with
    | some hi, some lo, .ok bytes => .ok ((hi * 16 + lo) :: bytes)
    | _, _, _ => .error "Invalid character."

/-- Embedding of `DigestFunction` from `iroha_client_no_std/src/crypto.rs`,
with the multihash table byte codes. -/
inductive MultihashDigestFunction where
  | Ed25519Pub
  | Secp256k1Pub
deriving DecidableEq

/-- Byte code of a multihash digest function (`0xed`, `0xe7`). -/
def MultihashDigestFunction.code : MultihashDigestFunction → Nat
  | .Ed25519Pub => 0xed
  | .Secp256k1Pub => 0xe7

/-- Embedding of `Multihash`: digest function and payload. -/
structure Multihash where
  digest_function : MultihashDigestFunction
  payload : List Nat
deriving DecidableEq

/-- Modelled from the spec: a multihash encodes as one code byte, one length
byte, then the payload (spec §4.1 and §6; `multihash.rs` is outside the
excerpt).  The length is truncated to a byte as a `len as u8` cast would
be. -/
def Multihash.toBytes (self : Multihash) : List Nat :=
  self.digest_function.code :: self.payload.length % 256 :: self.payload

/-- Modelled from the spec: decoding a multihash reads the code byte
(rejecting unknown codes), the length byte (rejecting a mismatch with the
remaining payload), and takes the rest as the payload. -/
def Multihash.fromBytes? (bytes : List Nat) : Except String Multihash :=
  match bytes with
  | code :: len :: payload =>
    if code = 0xed then
      if len = payload.length then .ok ⟨.Ed25519Pub, payload⟩
      else .error "Wrong payload length."
    else if code = 0xe7 then
      if len = payload.length then .ok ⟨.Secp256k1Pub, payload⟩
      else .error "Wrong payload length."
    else .error "Unknown digest function code."
  | _ => .error "Multihash too short."

/-- Embedding of `TryFrom<&PublicKey> for Multihash`: only the two supported
digest-function strings convert. -/
def Multihash.ofPublicKey? (public_key : PublicKey) : Except String Multihash :=
  if public_key.digest_function = "ed25519" then
    .ok ⟨.Ed25519Pub, public_key.payload⟩
  else if public_key.digest_function = "secp256k1" then
    .ok ⟨.Secp256k1Pub, public_key.payload⟩
  else .error "Digest function not implemented."

/-- Embedding of `TryFrom<&Multihash> for PublicKey`. -/
def PublicKey.ofMultihash (multihash : Multihash) : PublicKey :=
  match multihash.digest_function with
  | .Ed25519Pub => ⟨"ed25519", multihash.payload⟩
  | .Secp256k1Pub => ⟨"secp256k1", multihash.payload⟩

/-- Embedding of `impl Display for PublicKey`: hex of the multihash bytes.
The source's `expect` on an unsupported digest function is embedded as an
error. -/
def PublicKey.display? (self : PublicKey) : Except String String :=
  match Multihash.ofPublicKey? self with
  | .error e => .error e
  | .ok multihash => .ok (String.mk (hexEncodeChars multihash.toBytes))

/-- Embedding of `impl Deserialize for PublicKey` on a plain string: hex
decode, parse the multihash, convert back to a public key. -/
def PublicKey.fromStr? (s : String) : Except String PublicKey :=
  match hexDecode s.data with
  | .error e => .error e
  | .ok bytes =>
    match Multihash.fromBytes? bytes with
    | .error e => .error e
    | .ok multihash => .ok (PublicKey.ofMultihash multihash)

/-! ### Concrete fixtures used by witnesses and counterexamples -/

/-- Permission check that always grants. -/
def permAllow : PermCheck := fun _ _ => .ok ()

/-- Permission check that always denies with a fixed message. -/
def permDeny : PermCheck := fun _ _ => .error "Permission denied."

/-- Account id fixture. -/
def aliceId : AccountId := ⟨"alice", "wonderland"⟩

/-- Account fixture. -/
def accountAlice : Account := ⟨aliceId, []⟩

/-- Asset definition id fixture. -/
def xorId : AssetDefinitionId := ⟨"xor", "wonderland"⟩

/-- Asset definition fixture. -/
def xorDef : AssetDefinition := ⟨xorId⟩

/-- Domain fixture already containing `accountAlice` and `xorDef`. -/
def domainW : Domain := ⟨"wonderland", [(aliceId, accountAlice)], [(xorId, xorDef)]⟩

/-- World-state-view fixture containing `domainW`. -/
def wsvW : WorldStateView := ⟨[("wonderland", domainW)]⟩

/-- Hash-function fixture for concrete Kura evaluations. -/
def hashTest : HashFn := fun b => b.header.height + 100

/-- Block fixture whose header height is 7. -/
def blockH7 : ValidBlock := ⟨⟨7, 0, 0, 0⟩, []⟩

/-- Fresh block fixture handed to `store`. -/
def blockNew : ValidBlock := ⟨⟨0, 0, 0, 0⟩, [1]⟩

/-- Kura fixture whose tail holds the single block `blockH7`. -/
def kuraT : Kura :=
  { mode := .Strict
    blocks := [blockH7]
    block_store := ⟨[(7, blockH7)]⟩
    merkle_tree := MerkleTree.new }

/-- Block fixture at height 0 for the mode counterexample. -/
def blockC0 : ValidBlock := ⟨⟨0, 0, 0, 0⟩, []⟩

/-- Block fixture at height 1 whose previous hash does not chain to
`blockC0` under `hashTest`. -/
def blockC1 : ValidBlock := ⟨⟨1, 0, 999, 0⟩, []⟩

/-- Block store fixture holding the two unchained blocks. -/
def storeC : BlockStore := ⟨[(0, blockC0), (1, blockC1)]⟩

/-- Block fixture with payload 5 at height 0. -/
def cb0 : ValidBlock := ⟨⟨0, 0, 0, 0⟩, [5]⟩

/-- Block fixture with payload 6 at height 1. -/
def cb1 : ValidBlock := ⟨⟨1, 0, 100, 0⟩, [6]⟩

/-- Public-key fixture with a two-byte payload. -/
def pkW : PublicKey := ⟨"ed25519", [21, 9]⟩

/-! ### Helper lemmas -/

/-- Mapping commutes with filtering along the projection. -/
theorem filter_then_map {α β : Type} (l : List α) (f : α → β) (p : β → Bool) :
    (l.filter (fun a => p (f a))).map f = (l.map f).filter p := by
  induction l with
  | nil => rfl
  | cons a rest ih =>
    by_cases h : p (f a) <;> simp [List.filter, h, ih]

/-- Appending strings is associative. -/
theorem string_append_assoc (a b c : String) : a ++ b ++ c = a ++ (b ++ c) :=
  String.append_assoc a b c

/-! ### Claims about the domain model and instruction execution -/

/-- C10: for all `Domain` values `d1` and `d2`, `d1 == d2` holds iff
`d1.name == d2.name` — the hand-written `PartialEq` ignores the accounts and
asset-definitions maps, so two domains with the same name but different
contents compare equal. -/
theorem domain_eq_iff_name_eq (d1 d2 : Domain) :
    Domain.eqPartial d1 d2 = true ↔ d1.name = d2.name := by
  simp [Domain.eqPartial]

/-- C8: for every backend, container and payload, `Signatures.verified` is
exactly the sublist of `Signatures.values` whose members individually verify
against the payload; failing signatures are filtered out, not reported as
errors. -/
theorem signatures_verified_exact (backend : Backend) (s : Signatures)
    (payload : List Nat) :
    Signatures.verified backend s payload =
      (Signatures.values s).filter
        (fun sig => (Signature.verify backend sig payload).isOk) ∧
    (Signatures.verified backend s payload).Sublist (Signatures.values s) := by
  constructor
  · unfold Signatures.verified Signatures.values
    exact filter_then_map s.signatures (fun kv => kv.2)
      (fun sig => (Signature.verify backend sig payload).isOk)
  · unfold Signatures.verified Signatures.values
    exact List.Sublist.map _ (List.filter_sublist s.signatures)

/-- C2: executing a domain instruction never touches the caller's
world-state-view — the applier keeps its own WSV whenever execution returns
an error, and the permission check runs against the unmodified pre-call WSV,
with its error propagated verbatim. -/
theorem failed_execute_preserves_wsv (perm : PermCheck) (instruction : DomainInstruction)
    (authority : AccountId) (wsv : WorldStateView) :
    ((DomainInstruction.execute perm instruction authority wsv).isOk = false →
      applyDomainInstruction perm instruction authority wsv = wsv) ∧
    (∀ e, perm (instruction.permissionOf authority) wsv = .error e →
      DomainInstruction.execute perm instruction authority wsv = .error e) := by
  constructor
  · intro h
    unfold applyDomainInstruction
    cases hex : DomainInstruction.execute perm instruction authority wsv with
    | ok out => rw [hex] at h; simp [Except.isOk, Except.toBool] at h
    | error e => rfl
  · intro e he
    cases instruction with
    | RegisterAccount domain_name account =>
      simp only [DomainInstruction.permissionOf] at he
      simp [DomainInstruction.execute, Register.executeAccount, he]
    | RegisterAsset domain_name asset =>
      simp only [DomainInstruction.permissionOf] at he
      simp [DomainInstruction.execute, Register.executeAsset, he]

/-- Witness for C2: a register aimed at a missing domain fails and the
applier keeps the original world-state-view; a denied permission check's
error comes back verbatim. -/
theorem failed_execute_preserves_wsv_witness :
    applyDomainInstruction permAllow (.RegisterAccount "nowhere" accountAlice)
      aliceId wsvW = wsvW ∧
    DomainInstruction.execute permDeny (.RegisterAccount "wonderland" accountAlice)
      aliceId wsvW = .error "Permission denied." :=
  ⟨(failed_execute_preserves_wsv permAllow (.RegisterAccount "nowhere" accountAlice)
      aliceId wsvW).1 (by decide),
   (failed_execute_preserves_wsv permDeny (.RegisterAccount "wonderland" accountAlice)
      aliceId wsvW).2 "Permission denied." rfl⟩

/-- C5: registering an account whose id is already a key of the destination
domain's account map fails with a message containing "already contains", and
the caller's world-state-view (hence the stored account) is unchanged. -/
theorem register_existing_account_errors (perm : PermCheck)
    (self : Register Account) (authority : AccountId) (wsv : WorldStateView)
    (d : Domain)
    (hperm : perm (.CanRegisterAccount authority) wsv = .ok ())
    (hdom : wsv.domain self.destination_id = some d)
    (hdup : containsKV d.accounts self.object.id = true) :
    Register.executeAccount perm self authority wsv =
      .error ("Domain already contains an account with an Id: " ++
        self.object.id.debugFmt) ∧
    (∃ pre post,
      "Domain already contains an account with an Id: " ++ self.object.id.debugFmt =
        pre ++ ("already contains" ++ post)) ∧
    applyDomainInstruction perm (.RegisterAccount self.destination_id self.object)
      authority wsv = wsv := by
  have hexec : Register.executeAccount perm self authority wsv =
      .error ("Domain already contains an account with an Id: " ++
        self.object.id.debugFmt) := by
    simp [Register.executeAccount, hperm, hdom, hdup]
  refine ⟨hexec, ⟨"Domain ", " an account with an Id: " ++ self.object.id.debugFmt, ?_⟩, ?_⟩
  · rw [show ("Domain already contains an account with an Id: " : String) =
      "Domain " ++ ("already contains" ++ " an account with an Id: ") from rfl,
      string_append_assoc, string_append_assoc]
  · unfold applyDomainInstruction
    simp only [DomainInstruction.execute]
    rw [show Register.executeAccount perm ⟨self.object, self.destination_id⟩
        authority wsv = Register.executeAccount perm self authority wsv from rfl,
      hexec]

/-- Witness for C5: the duplicate registration of `accountAlice` into
`domainW` errors with an "already contains" message and leaves the
world-state-view intact. -/
theorem register_existing_account_errors_witness :
    Register.executeAccount permAllow ⟨accountAlice, "wonderland"⟩ aliceId wsvW =
      .error ("Domain already contains an account with an Id: " ++
        aliceId.debugFmt) ∧
    (∃ pre post,
      "Domain already contains an account with an Id: " ++ aliceId.debugFmt =
        pre ++ ("already contains" ++ post)) ∧
    applyDomainInstruction permAllow (.RegisterAccount "wonderland" accountAlice)
      aliceId wsvW = wsvW :=
  register_existing_account_errors permAllow ⟨accountAlice, "wonderland"⟩ aliceId
    wsvW domainW rfl (by decide) (by decide)

/-- C1 counterexample: with the asset definition `xorDef` already present in
`domainW`, `Register<Domain, AssetDefinition>` nevertheless succeeds — the
source inserts unconditionally and performs no duplicate check, so no error
is returned. -/
theorem register_existing_asset_succeeds_cex :
    containsKV domainW.asset_definitions xorId = true ∧
    (Register.executeAsset permAllow ⟨xorDef, "wonderland"⟩ aliceId wsvW).isOk = true := by
  decide

/-- C1 amended: executing `Register<Domain, AssetDefinition>` when the
destination domain already contains the asset definition's id succeeds
(permission granted, domain present) and overwrites the stored definition —
registering an existing id is an update, not an error. -/
theorem register_existing_asset_overwrites (perm : PermCheck)
    (self : Register AssetDefinition) (authority : AccountId)
    (wsv : WorldStateView) (d : Domain)
    (hperm : perm (.CanRegisterAssetDefinition authority) wsv = .ok ())
    (hdom : wsv.domain self.destination_id = some d)
    (_hdup : containsKV d.asset_definitions self.object.id = true) :
    ∃ d2,
      Register.executeAsset perm self authority wsv =
        .ok (Output.RegisterAsset (wsv.updateDomain self.destination_id d2)) ∧
      findKV? d2.asset_definitions self.object.id = some self.object ∧
      (wsv.updateDomain self.destination_id d2).domain self.destination_id = some d2 := by
  refine ⟨({ d with asset_definitions := insertKV d.asset_definitions self.object.id self.object } : Domain), ?_, ?_, ?_⟩
  · simp [Register.executeAsset, hperm, hdom]
  · exact findKV?_insertKV_self d.asset_definitions self.object.id self.object
  · unfold WorldStateView.updateDomain WorldStateView.domain
    exact findKV?_insertKV_self wsv.domains self.destination_id _

/-- Witness for the amended C1: registering `xorDef` into `domainW`, which
already holds it, returns `Ok` with the definition stored under its id. -/
theorem register_existing_asset_overwrites_witness :
    ∃ d2,
      Register.executeAsset permAllow ⟨xorDef, "wonderland"⟩ aliceId wsvW =
        .ok (Output.RegisterAsset (wsvW.updateDomain "wonderland" d2)) ∧
      findKV? d2.asset_definitions xorId = some xorDef ∧
      (wsvW.updateDomain "wonderland" d2).domain "wonderland" = some d2 :=
  register_existing_asset_overwrites permAllow ⟨xorDef, "wonderland"⟩ aliceId
    wsvW domainW rfl (by decide) (by decide)

/-! ### Claims about Kura -/

/-- C3 counterexample: with a tail whose last block has header height 7,
`Kura::store` stamps the incoming block with height 1 (the last tail index
plus one), not with 8 (the last block's header height plus one). -/
theorem store_stamps_index_not_height_cex :
    (kuraT.blocks.getLast?.map (fun b => b.header.height) = some 7) ∧
    ((Kura.store hashTest false kuraT blockNew).2.1.blocks.getLast?.map
      (fun b => b.header.height) = some 1) ∧
    (1 : Nat) ≠ 7 + 1 := by
  decide

/-- C3 amended: when the tail is non-empty, `Kura::store` re-stamps the block
with height equal to the tail length (the index of the last tail entry plus
one) and previous hash equal to the hash of the last tail entry, leaving the
payload alone; when the tail is empty the block is left untouched — and the
block appended to the tail by a successful `store` is exactly the re-stamped
one. -/
theorem store_stamps_by_tail_length (hashFn : HashFn) (kura : Kura)
    (block : ValidBlock) :
    (∀ last, kura.blocks.getLast? = some last →
      (Kura.stamp hashFn kura block).header.height = kura.blocks.length ∧
      (Kura.stamp hashFn kura block).header.previous_block_hash = hashFn last ∧
      (Kura.stamp hashFn kura block).transactions = block.transactions) ∧
    (kura.blocks = [] → Kura.stamp hashFn kura block = block) ∧
    (Kura.store hashFn false kura block).2.1.blocks =
      kura.blocks ++ [Kura.stamp hashFn kura block] := by
  refine ⟨?_, ?_, ?_⟩
  · intro last hlast
    have hne : kura.blocks ≠ [] := by
      intro h
      rw [h] at hlast
      exact Option.noConfusion hlast
    have hlen : kura.blocks.length - 1 + 1 = kura.blocks.length :=
      Nat.succ_pred_eq_of_pos (List.length_pos.mpr hne)
    simp [Kura.stamp, hlast, hlen]
  · intro h
    simp [Kura.stamp, h]
  · simp [Kura.store, BlockStore.write]

/-- Witness for the amended C3: storing into `kuraT` (tail of length one)
stamps height 1 and the hash of `blockH7`. -/
theorem store_stamps_by_tail_length_witness :
    (Kura.stamp hashTest kuraT blockNew).header.height = kuraT.blocks.length ∧
    (Kura.stamp hashTest kuraT blockNew).header.previous_block_hash =
      hashTest blockH7 ∧
    (Kura.stamp hashTest kuraT blockNew).transactions = blockNew.transactions :=
  (store_stamps_by_tail_length hashTest kuraT blockNew).1 blockH7 rfl

/-- C4: when the block-store write succeeds, `Kura::store` returns the hash
of the (re-stamped) block, sends exactly one committed block for it on the
commit channel, and pushes it onto the tail; when the write fails, the error
is returned, nothing is sent, and the tail is not advanced. -/
theorem store_commit_iff_write_ok (hashFn : HashFn) (kura : Kura)
    (block : ValidBlock) :
    (Kura.store hashFn false kura block).1 =
      .ok (hashFn (kura.stamp hashFn block)) ∧
    (Kura.store hashFn false kura block).2.2 =
      [(kura.stamp hashFn block).commit] ∧
    (Kura.store hashFn false kura block).2.1.blocks =
      kura.blocks ++ [kura.stamp hashFn block] ∧
    (∃ e, (Kura.store hashFn true kura block).1 = .error e) ∧
    (Kura.store hashFn true kura block).2.2 = [] ∧
    (Kura.store hashFn true kura block).2.1.blocks = kura.blocks := by
  refine ⟨?_, ?_, ?_, ⟨"Failed to write to storage file.", ?_⟩, ?_, ?_⟩ <;>
    simp [Kura.store, BlockStore.write]

/-- C7 counterexample: on a store containing a block that violates the chain
invariant, a `Strict` Kura and a `Fast` Kura initialize to the very same
tail — `init` never consults the mode and performs no re-validation, so the
invalid block is accepted in both modes. -/
theorem strict_fast_init_identical_cex :
    (Kura.init hashTest (Kura.new .Strict storeC)).blocks =
      (Kura.init hashTest (Kura.new .Fast storeC)).blocks ∧
    (Kura.init hashTest (Kura.new .Strict storeC)).blocks = [blockC0, blockC1] ∧
    chainValid hashTest [blockC0, blockC1] = false := by
  decide

/-- C7 amended: `Kura::init` ignores the mode entirely — for any two modes
the resulting tail and Merkle tree coincide, and both equal the raw contents
of the store read back without any re-validation. -/
theorem init_ignores_mode (hashFn : HashFn) (bs : BlockStore) (m1 m2 : Mode) :
    (Kura.init hashFn (Kura.new m1 bs)).blocks =
      (Kura.init hashFn (Kura.new m2 bs)).blocks ∧
    (Kura.init hashFn (Kura.new m1 bs)).merkle_tree =
      (Kura.init hashFn (Kura.new m2 bs)).merkle_tree ∧
    (Kura.init hashFn (Kura.new m1 bs)).blocks = bs.read_all := by
  refine ⟨rfl, rfl, rfl⟩

/-- Keys above the fold-maximum of an association list are absent. -/
theorem findKV?_none_of_maxlt (files : List (Nat × ValidBlock)) (k : Nat)
    (h : files.foldr (fun kv acc => max kv.1 acc) 0 < k) :
    findKV? files k = none := by
  induction files with
  | nil => rfl
  | cons kv rest ih =>
    simp only [List.foldr, Nat.max_lt] at h
    have h1 : kv.1 ≠ k := Nat.ne_of_lt h.1
    simp [findKV?, h1, ih h.2]

/-- Reading any height above `maxHeight` misses. -/
theorem read_none_of_maxHeight_lt (bs : BlockStore) (k : Nat)
    (h : bs.maxHeight < k) : bs.read k = none :=
  findKV?_none_of_maxlt bs.files k h

/-- Characterization of the fuelled `read_all` loop, provided some height
within the fuel budget misses: the result lists the blocks at the consecutive
heights starting at `h`, and the height just past the result misses. -/
theorem readAllAux_get? (bs : BlockStore) :
    ∀ (fuel h : Nat), (∃ i, i < fuel ∧ bs.read (h + i) = none) →
      (∀ j, j < (bs.readAllAux fuel h).length →
        bs.read (h + j) = (bs.readAllAux fuel h).get? j) ∧
      bs.read (h + (bs.readAllAux fuel h).length) = none := by
  intro fuel
  induction fuel with
  | zero =>
    intro h hex
    obtain ⟨i, hi, _⟩ := hex
    exact absurd hi (Nat.not_lt_zero i)
  | succ fuel ih =>
    intro h hex
    obtain ⟨i, hi, hnone⟩ := hex
    cases hr : bs.read h with
    | none =>
      refine ⟨?_, ?_⟩
      · intro j hj
        simp only [BlockStore.readAllAux, hr, List.length_nil] at hj
        exact absurd hj (Nat.not_lt_zero j)
      · simp only [BlockStore.readAllAux, hr, List.length_nil, Nat.add_zero]
    | some b =>
      have hi0 : i ≠ 0 := by
        intro h0
        rw [h0, Nat.add_zero, hr] at hnone
        exact Option.noConfusion hnone
      obtain ⟨i2, rfl⟩ : ∃ i2, i = i2 + 1 :=
        ⟨i - 1, (Nat.succ_pred_eq_of_pos (Nat.pos_of_ne_zero hi0)).symm⟩
      have hex2 : ∃ i3, i3 < fuel ∧ bs.read ((h + 1) + i3) = none := by
        refine ⟨i2, Nat.lt_of_succ_lt_succ hi, ?_⟩
        rw [show h + 1 + i2 = h + (i2 + 1) by omega]
        exact hnone
      obtain ⟨ihp, ihn⟩ := ih (h + 1) hex2
      refine ⟨?_, ?_⟩
      · intro j hj
        simp only [BlockStore.readAllAux, hr] at hj ⊢
        cases j with
        | zero => simpa using hr
        | succ j2 =>
          have hj2 : j2 < (bs.readAllAux fuel (h + 1)).length := by
            simpa using hj
          have hstep := ihp j2 hj2
          rw [show h + (j2 + 1) = h + 1 + j2 by omega, hstep, List.get?_cons_succ]
      · simp only [BlockStore.readAllAux, hr, List.length_cons]
        rw [show h + ((bs.readAllAux fuel (h + 1)).length + 1) =
          (h + 1) + (bs.readAllAux fuel (h + 1)).length by omega]
        exact ihn

/-- Characterization of `read_all` itself: it returns the blocks at
consecutive heights 0, 1, 2, … and the height just past the result is the
first missing one. -/
theorem read_all_spec (bs : BlockStore) :
    (∀ j, j < bs.read_all.length → bs.read j = bs.read_all.get? j) ∧
    bs.read bs.read_all.length = none := by
  have hex : ∃ i, i < bs.maxHeight + 2 ∧ bs.read (0 + i) = none := by
    refine ⟨bs.maxHeight + 1, by omega, ?_⟩
    rw [Nat.zero_add]
    exact read_none_of_maxHeight_lt bs _ (by omega)
  obtain ⟨h1, h2⟩ := readAllAux_get? bs (bs.maxHeight + 2) 0 hex
  refine ⟨?_, ?_⟩
  · intro j hj
    have := h1 j hj
    rwa [Nat.zero_add] at this
  · have := h2
    rwa [Nat.zero_add] at this

/-- Reading back a store produced by a sequence of successful writes: the
written block whose height matches the requested key is returned, heights
outside the written range fall through to the previous store contents. -/
theorem read_writeAll (hashFn : HashFn) :
    ∀ (blocks : List ValidBlock) (bs : BlockStore) (n0 : Nat),
      (∀ i (hi : i < blocks.length), (blocks.get ⟨i, hi⟩).header.height = n0 + i) →
      ∀ k, (BlockStore.writeAll hashFn bs blocks).read k =
        if n0 ≤ k ∧ k - n0 < blocks.length then blocks.get? (k - n0)
        else bs.read k := by
  intro blocks
  induction blocks with
  | nil =>
    intro bs n0 _hh k
    rw [if_neg]
    · rfl
    · intro hcon
      exact absurd hcon.2 (by simp)
  | cons b rest ih =>
    intro bs n0 hh k
    have hlen : (b :: rest).length = rest.length + 1 := rfl
    have hb : b.header.height = n0 := by simpa using hh 0 (by simp)
    have hrest : ∀ i (hi : i < rest.length),
        (rest.get ⟨i, hi⟩).header.height = (n0 + 1) + i := by
      intro i hi
      have h2 := hh (i + 1) (by simpa using Nat.succ_lt_succ hi)
      simp only [List.get_cons_succ] at h2
      rw [h2]
      omega
    have hw : BlockStore.writeAll hashFn bs (b :: rest) =
        BlockStore.writeAll hashFn ⟨insertKV bs.files b.header.height b⟩ rest := rfl
    rw [hw, ih ⟨insertKV bs.files b.header.height b⟩ (n0 + 1) hrest k]
    have hbs2 : BlockStore.read ⟨insertKV bs.files b.header.height b⟩ k =
        if n0 = k then some b else bs.read k := by
      by_cases hk : n0 = k
      · rw [if_pos hk]
        subst hk
        show findKV? (insertKV bs.files b.header.height b) n0 = some b
        rw [hb]
        exact findKV?_insertKV_self bs.files n0 b
      · rw [if_neg hk]
        show findKV? (insertKV bs.files b.header.height b) k = findKV? bs.files k
        apply findKV?_insertKV_ne
        rw [hb]
        exact hk
    by_cases h1 : (n0 + 1) ≤ k ∧ k - (n0 + 1) < rest.length
    · rw [if_pos h1, if_pos (show n0 ≤ k ∧ k - n0 < (b :: rest).length by
        constructor
        · omega
        · omega)]
      rw [show k - n0 = (k - (n0 + 1)) + 1 by omega, List.get?_cons_succ]
    · rw [if_neg h1, hbs2]
      by_cases hk : n0 = k
      · rw [if_pos hk, if_pos (show n0 ≤ k ∧ k - n0 < (b :: rest).length by
          constructor
          · omega
          · omega)]
        rw [show k - n0 = 0 by omega, List.get?_cons_zero]
      · rw [if_neg hk, if_neg (show ¬(n0 ≤ k ∧ k - n0 < (b :: rest).length) by
          intro hcon
          exact h1 ⟨by omega, by omega⟩)]

/-- C6: `read_all` returns exactly the blocks at consecutive heights 0, 1,
2, … in ascending height order, stopping at the first missing height — the
store is treated as a prefix; in particular, after writing `n` blocks whose
header heights are 0 … n−1, `read_all` returns those `n` blocks in order. -/
theorem read_all_stops_at_first_missing (bs : BlockStore) (hashFn : HashFn)
    (blocks : List ValidBlock) :
    (∀ j (hj : j < bs.read_all.length),
      bs.read j = some (bs.read_all.get ⟨j, hj⟩)) ∧
    bs.read bs.read_all.length = none ∧
    ((∀ i (hi : i < blocks.length), (blocks.get ⟨i, hi⟩).header.height = i) →
      (BlockStore.writeAll hashFn BlockStore.empty blocks).read_all = blocks) := by
  obtain ⟨p1, p2⟩ := read_all_spec bs
  refine ⟨?_, p2, ?_⟩
  · intro j hj
    rw [p1 j hj, List.get?_eq_get hj]
  · intro hh
    have hchar : ∀ k, (BlockStore.writeAll hashFn BlockStore.empty blocks).read k =
        if k < blocks.length then blocks.get? k else none := by
      intro k
      have := read_writeAll hashFn blocks BlockStore.empty 0
        (by intro i hi; simpa using hh i hi) k
      rw [this]
      by_cases hk : k < blocks.length
      · rw [if_pos ⟨Nat.zero_le k, by simpa using hk⟩, if_pos hk, Nat.sub_zero]
      · rw [if_neg (by intro hcon; exact hk (by simpa using hcon.2)), if_neg hk]
        rfl
    obtain ⟨q1, q2⟩ := read_all_spec (BlockStore.writeAll hashFn BlockStore.empty blocks)
    have hL : (BlockStore.writeAll hashFn BlockStore.empty blocks).read_all.length =
        blocks.length := by
      by_contra hne
      rcases Nat.lt_or_ge
        (BlockStore.writeAll hashFn BlockStore.empty blocks).read_all.length
        blocks.length with hlt | hge
      · have hq := q2
        rw [hchar _, if_pos hlt, List.get?_eq_get hlt] at hq
        exact Option.noConfusion hq
      · have hnb : blocks.length <
            (BlockStore.writeAll hashFn BlockStore.empty blocks).read_all.length := by
          omega
        have hq := q1 blocks.length hnb
        rw [hchar _, if_neg (by omega), List.get?_eq_get hnb] at hq
        exact Option.noConfusion hq
    apply List.ext
    intro n
    rcases Nat.lt_or_ge n blocks.length with hn | hn
    · have hnL : n < (BlockStore.writeAll hashFn BlockStore.empty blocks).read_all.length := by
        omega
      have e1 := q1 n hnL
      have e2 := hchar n
      rw [if_pos hn] at e2
      rw [← e1, e2]
    · rw [List.get?_eq_none.mpr (by omega), List.get?_eq_none.mpr hn]

/-- Witness for C6: after writing the two blocks at heights 0 and 1 into an
empty store, `read_all` returns exactly those two blocks in order. -/
theorem read_all_stops_at_first_missing_witness :
    (BlockStore.writeAll hashTest BlockStore.empty [cb0, cb1]).read_all =
      [cb0, cb1] :=
  (read_all_stops_at_first_missing BlockStore.empty hashTest [cb0, cb1]).2.2 (by decide)

/-! ### Claims about public-key display and parsing -/

/-- Hex digits below 16 survive the digit encode/decode round trip. -/
theorem hexDigit_roundtrip : ∀ n, n < 16 → hexDigitVal? (hexDigitChar n) = some n := by
  decide

/-- Decoding inverts encoding on well-formed byte lists. -/
theorem hexDecode_hexEncode (bs : List Nat) (h : BytesWF bs) :
    hexDecode (hexEncodeChars bs) = .ok bs := by
  induction bs with
  | nil => rfl
  | cons b rest ih =>
    have hb : b < 256 := h b (List.mem_cons_self b rest)
    have hrest : BytesWF rest := fun x hx => h x (List.mem_cons_of_mem b hx)
    have h1 : hexDigitVal? (hexDigitChar (b / 16)) = some (b / 16) :=
      hexDigit_roundtrip (b / 16) (by omega)
    have h2 : hexDigitVal? (hexDigitChar (b % 16)) = some (b % 16) :=
      hexDigit_roundtrip (b % 16) (by omega)
    show hexDecode (hexDigitChar (b / 16) :: hexDigitChar (b % 16) ::
      hexEncodeChars rest) = .ok (b :: rest)
    simp only [hexDecode, h1, h2, ih hrest]
    rw [show b / 16 * 16 + b % 16 = b by omega]

/-- C9 counterexample: a public key whose digest-function tag is not among
the two supported ones has no displayed form at all — `Display` hits the
`expect` on the multihash conversion — so parsing the displayed form cannot
yield the key back. -/
theorem display_roundtrip_cex :
    ¬ ∃ s, PublicKey.display? ⟨"md5", []⟩ = .ok s ∧
      PublicKey.fromStr? s = .ok (⟨"md5", []⟩ : PublicKey) := by
  rintro ⟨s, hs, -⟩
  rw [show PublicKey.display? ⟨"md5", []⟩ =
    .error "Digest function not implemented." from rfl] at hs
  exact Except.noConfusion hs

/-- C9 amended: for every public key whose digest function is `"ed25519"` or
`"secp256k1"` and whose payload is a byte sequence shorter than 256 (so the
one-byte multihash length is exact), parsing the displayed lower-case hex
multihash form yields the key back. -/
theorem display_fromStr_roundtrip (p : PublicKey)
    (halg : p.digest_function = "ed25519" ∨ p.digest_function = "secp256k1")
    (hlen : p.payload.length < 256)
    (hbytes : BytesWF p.payload) :
    ∃ s, PublicKey.display? p = .ok s ∧ PublicKey.fromStr? s = .ok p := by
  obtain ⟨dfn, payload⟩ := p
  simp only at halg hlen hbytes
  rcases halg with h | h
  all_goals subst h
  · have hwf : BytesWF (Multihash.toBytes ⟨.Ed25519Pub, payload⟩) := by
      intro b hb
      simp only [Multihash.toBytes, MultihashDigestFunction.code, List.mem_cons] at hb
      rcases hb with rfl | rfl | hb
      · omega
      · omega
      · exact hbytes b hb
    refine ⟨String.mk (hexEncodeChars (Multihash.toBytes ⟨.Ed25519Pub, payload⟩)), rfl, ?_⟩
    have h1 : hexDecode (String.mk (hexEncodeChars
        (Multihash.toBytes ⟨.Ed25519Pub, payload⟩))).data =
        .ok (Multihash.toBytes ⟨.Ed25519Pub, payload⟩) :=
      hexDecode_hexEncode _ hwf
    have hfb : Multihash.fromBytes? (Multihash.toBytes ⟨.Ed25519Pub, payload⟩) =
        .ok ⟨.Ed25519Pub, payload⟩ := by
      simp [Multihash.fromBytes?, Multihash.toBytes, MultihashDigestFunction.code,
        Nat.mod_eq_of_lt hlen]
    simp [PublicKey.fromStr?, h1, hfb, PublicKey.ofMultihash]
  · have hwf : BytesWF (Multihash.toBytes ⟨.Secp256k1Pub, payload⟩) := by
      intro b hb
      simp only [Multihash.toBytes, MultihashDigestFunction.code, List.mem_cons] at hb
      rcases hb with rfl | rfl | hb
      · omega
      · omega
      · exact hbytes b hb
    refine ⟨String.mk (hexEncodeChars (Multihash.toBytes ⟨.Secp256k1Pub, payload⟩)), rfl, ?_⟩
    have h1 : hexDecode (String.mk (hexEncodeChars
        (Multihash.toBytes ⟨.Secp256k1Pub, payload⟩))).data =
        .ok (Multihash.toBytes ⟨.Secp256k1Pub, payload⟩) :=
      hexDecode_hexEncode _ hwf
    have hfb : Multihash.fromBytes? (Multihash.toBytes ⟨.Secp256k1Pub, payload⟩) =
        .ok ⟨.Secp256k1Pub, payload⟩ := by
      simp [Multihash.fromBytes?, Multihash.toBytes, MultihashDigestFunction.code,
        Nat.mod_eq_of_lt hlen]
    simp [PublicKey.fromStr?, h1, hfb, PublicKey.ofMultihash]

/-- Witness for the amended C9: the fixture key round-trips through its
displayed form. -/
theorem display_fromStr_roundtrip_witness :
    ∃ s, PublicKey.display? pkW = .ok s ∧ PublicKey.fromStr? s = .ok pkW :=
  display_fromStr_roundtrip pkW (Or.inl rfl) (by decide)
    (by intro b hb; simp only [pkW, List.mem_cons, List.not_mem_nil, or_false] at hb
        rcases hb with rfl | rfl <;> omega)

end IrohaSpec
